import Mathlib

/-!
Shallow embedding of `src/main.py` (belt-winder firmware).

Conventions used throughout:
* MicroPython timestamps and `time.ticks_diff` are modelled over `Int`
  (`ticks_diff a b = a - b`); only differences against a timeout matter here.
* The hall-sensor logic level is a `Nat` exactly as in the source
  (`ABOVE_MAGNET_LOGIC_LEVEL = 0`, `NOT_ABOVE_MAGNET_LOGIC_LEVEL = 1`).
* A blocking wait loop that reads the clock and the sensor once per
  iteration is modelled as a function consuming a finite trace of
  observations `(elapsed_ms, level)`; an exhausted trace yields `none`
  (the real loop would simply still be running), `some true` models the
  source returning `True` ("Reached") and `some false` models `False`
  ("TimedOut").
* Wait-call outcomes consumed by the mode loops are therefore `List Bool`
  streams, one `Bool` per `wait_for_sync_position` call, in call order.
-/

/-- An ADC value read from a touch sensor below this indicates a press
(source constant `TOUCH_ADC_THRESHOLD = 300`). -/
def TOUCH_ADC_THRESHOLD : Int := 300

/-- How long a button needs to be pressed before an event fires
(source constant `BUTTON_PRESS_EVENT_THRESHOLD_MS = 200`). -/
def BUTTON_PRESS_EVENT_THRESHOLD_MS : Int := 200

/-- The logic level indicating the hall sensor is above a magnet
(source constant `ABOVE_MAGNET_LOGIC_LEVEL = 0`). -/
def ABOVE_MAGNET_LOGIC_LEVEL : Nat := 0

/-- The logic level indicating the hall sensor is between two magnets:
the source computes `int(ABOVE_MAGNET_LOGIC_LEVEL == 0)`. -/
def NOT_ABOVE_MAGNET_LOGIC_LEVEL : Nat :=
  if ABOVE_MAGNET_LOGIC_LEVEL = 0 then 1 else 0

/-- Model of `time.ticks_diff` (wraparound ignored; only small spans occur). -/
def ticks_diff (a b : Int) : Int := a - b

/-- Identifies the two physical motor-direction pins by the constructor
argument of `Blind.__init__` through which each was passed. -/
inductive PinArg
  | argA
  | argB
deriving DecidableEq

/-- A pin-level assignment: which physical pins are currently driven high. -/
def PinLevels : Type := PinArg → Bool

/-- Model of `Pin.on()` applied to pin `p` in state `s`. -/
def pin_on (s : PinLevels) (p : PinArg) : PinLevels :=
  fun q => if q = p then true else s q

/-- Model of `Pin.off()` applied to pin `p` in state `s`. -/
def pin_off (s : PinLevels) (p : PinArg) : PinLevels :=
  fun q => if q = p then false else s q

/-- The belt motor driver: holds which physical pin plays each internal role
(source `Blind.__init__` fields `_pin_a` / `_pin_b`). -/
structure Blind where
  pin_a : PinArg
  pin_b : PinArg

/-- Source `Blind.__init__(pin_a, pin_b, inverted)`: when `inverted` the
roles match the argument names, otherwise they are swapped. -/
def Blind.init (inverted : Bool) : Blind :=
  if inverted then ⟨PinArg.argA, PinArg.argB⟩ else ⟨PinArg.argB, PinArg.argA⟩

/-- Source `Blind.up`: `self._pin_a.on(); self._pin_b.off()`. -/
def Blind.up (b : Blind) (s : PinLevels) : PinLevels :=
  pin_off (pin_on s b.pin_a) b.pin_b

/-- Source `Blind.down`: `self._pin_a.off(); self._pin_b.on()`. -/
def Blind.down (b : Blind) (s : PinLevels) : PinLevels :=
  pin_on (pin_off s b.pin_a) b.pin_b

/-- Source `Blind.stop`: `self._pin_a.off(); self._pin_b.off()`. -/
def Blind.stop (b : Blind) (s : PinLevels) : PinLevels :=
  pin_off (pin_off s b.pin_a) b.pin_b

/-- C10: with `inverted == false` the pin roles are swapped relative to the
constructor argument names — `up()` drives the pin passed as `pin_b` high and
the pin passed as `pin_a` low, `down()` the reverse; only with
`inverted == true` does `up()` drive the pin passed as `pin_a` high; and in
every case `stop()` drives both pins low, so repeated `stop()` is idempotent. -/
theorem blind_pin_roles (s : PinLevels) (inverted : Bool) :
    (Blind.init false).up s PinArg.argB = true ∧
    (Blind.init false).up s PinArg.argA = false ∧
    (Blind.init false).down s PinArg.argA = true ∧
    (Blind.init false).down s PinArg.argB = false ∧
    (Blind.init true).up s PinArg.argA = true ∧
    (Blind.init true).up s PinArg.argB = false ∧
    (Blind.init inverted).stop s PinArg.argA = false ∧
    (Blind.init inverted).stop s PinArg.argB = false ∧
    (Blind.init inverted).stop ((Blind.init inverted).stop s) =
      (Blind.init inverted).stop s := by
  cases inverted <;>
    refine ⟨rfl, rfl, rfl, rfl, rfl, rfl, rfl, rfl, funext fun q => ?_⟩ <;>
    cases q <;> rfl

/-- The rotation-sensor tracker state that the edge IRQ callback publishes
(source `RotationSensor._current_level`; the timestamp bookkeeping of
`_pin_irq` does not influence any behaviour modelled here). -/
structure RotationSensor where
  current_level : Nat
deriving DecidableEq

/-- Source `RotationSensor._pin_irq(new_value)`: overwrites the published
`_current_level` with the freshly sensed value. -/
def RotationSensor.pin_irq (s : RotationSensor) (new_value : Nat) : RotationSensor :=
  { current_level := new_value }

/-- Source `RotationSensor.is_in_sync_position`: the method reads the hall
pin afresh (`self._hall_pin.value()`) and compares it against
`ABOVE_MAGNET_LOGIC_LEVEL`; the tracker state `s` is `self`, and
`hall_pin_value` is the value the hardware pin reads at call time. -/
def RotationSensor.is_in_sync_position (s : RotationSensor)
    (hall_pin_value : Nat) : Bool :=
  hall_pin_value == ABOVE_MAGNET_LOGIC_LEVEL

/-- Modelled from the spec for comparison: the spec describes
`is_in_sync_position` as a pure read of the most recently published
`current_level` (written by the edge callback). -/
def is_in_sync_position_spec (s : RotationSensor) : Bool :=
  s.current_level == ABOVE_MAGNET_LOGIC_LEVEL

/-- C4 counterexample: after the edge callback publishes
`NOT_ABOVE_MAGNET_LOGIC_LEVEL` (BetweenMagnets), a hall-pin reading of `0`
makes `is_in_sync_position` return `true` even though the published
`current_level` is not `AboveMagnet`: the method is a fresh hardware-pin
read, not a read of the level published by `_pin_irq`. -/
theorem is_in_sync_position_reads_pin_not_published_level :
    RotationSensor.is_in_sync_position
        (RotationSensor.pin_irq ⟨0⟩ NOT_ABOVE_MAGNET_LOGIC_LEVEL) 0 = true ∧
    is_in_sync_position_spec
        (RotationSensor.pin_irq ⟨0⟩ NOT_ABOVE_MAGNET_LOGIC_LEVEL) = false := by
  decide

/-- C4 amended: `is_in_sync_position` returns `true` iff the hall pin's
instantaneous value equals `ABOVE_MAGNET_LOGIC_LEVEL`; it is a pure function
of that fresh pin reading and is independent of the published tracker
state. -/
theorem is_in_sync_position_iff_pin_above (s t : RotationSensor) (v : Nat) :
    (RotationSensor.is_in_sync_position s v = true ↔
      v = ABOVE_MAGNET_LOGIC_LEVEL) ∧
    RotationSensor.is_in_sync_position s v =
      RotationSensor.is_in_sync_position t v := by
  constructor
  · simp [RotationSensor.is_in_sync_position]
  · rfl

/-- Second loop of `wait_for_sync_position`: each iteration reads the
elapsed time (`ticks_diff(ticks_ms(), start_ts)`) and the published level;
it returns `False` once the elapsed time exceeds the timeout and `True`
once the level equals `ABOVE_MAGNET_LOGIC_LEVEL`. `none` means the finite
observation trace ended while the loop was still spinning. -/
def waitLoopForMagnet (timeout_ms : Int) : List (Int × Nat) → Option Bool
  | [] => none
  | (ts, lvl) :: rest =>
    if ts > timeout_ms then some false
    else if lvl = ABOVE_MAGNET_LOGIC_LEVEL then some true
    else waitLoopForMagnet timeout_ms rest

/-- First loop of `wait_for_sync_position` (taken only when the call
started above a magnet): spins until the published level equals
`NOT_ABOVE_MAGNET_LOGIC_LEVEL`, then falls through to the second loop on
the remaining observations; returns `False` on timeout. -/
def waitLoopLeaveMagnet (timeout_ms : Int) : List (Int × Nat) → Option Bool
  | [] => none
  | (ts, lvl) :: rest =>
    if ts > timeout_ms then some false
    else if lvl = NOT_ABOVE_MAGNET_LOGIC_LEVEL then waitLoopForMagnet timeout_ms rest
    else waitLoopLeaveMagnet timeout_ms rest

/-- Source `RotationSensor.wait_for_sync_position(timeout_ms)`:
`start_level` is the published `_current_level` read at entry; `obs` is the
trace of (elapsed ms, published level) pairs the busy-poll loops observe,
one pair per iteration. `some true` models returning `True` ("Reached"),
`some false` models returning `False` ("TimedOut"). -/
def wait_for_sync_position (timeout_ms : Int) (start_level : Nat)
    (obs : List (Int × Nat)) : Option Bool :=
  if start_level = ABOVE_MAGNET_LOGIC_LEVEL then waitLoopLeaveMagnet timeout_ms obs
  else waitLoopForMagnet timeout_ms obs

/-- Helper: when the first loop reports `Reached`, the observation trace
splits at a `NOT_ABOVE_MAGNET_LOGIC_LEVEL` observation after which the
second loop reached the magnet. -/
theorem waitLoopLeaveMagnet_reached (T : Int) :
    ∀ obs : List (Int × Nat), waitLoopLeaveMagnet T obs = some true →
      ∃ l1 t1 l2, obs = l1 ++ (t1, NOT_ABOVE_MAGNET_LOGIC_LEVEL) :: l2 ∧
        waitLoopForMagnet T l2 = some true := by
  intro obs
  induction obs with
  | nil => intro h; simp [waitLoopLeaveMagnet] at h
  | cons p rest ih =>
    intro h
    obtain ⟨ts, lvl⟩ := p
    simp only [waitLoopLeaveMagnet] at h
    split_ifs at h with h1 h2
    · simp at h
    · exact ⟨[], ts, rest, by rw [h2]; rfl, h⟩
    · obtain ⟨l1, t1, l2, heq, hr⟩ := ih h
      exact ⟨(ts, lvl) :: l1, t1, l2, by rw [heq]; rfl, hr⟩

/-- Helper: the second loop reports `Reached` on the first in-budget
observation of `ABOVE_MAGNET_LOGIC_LEVEL`, provided every earlier
observation was in budget and not above a magnet. -/
theorem waitLoopForMagnet_first_above (T : Int) :
    ∀ (pre : List (Int × Nat)) (ts : Int) (rest : List (Int × Nat)),
      (∀ p ∈ pre, p.1 ≤ T ∧ p.2 ≠ ABOVE_MAGNET_LOGIC_LEVEL) → ts ≤ T →
      waitLoopForMagnet T (pre ++ (ts, ABOVE_MAGNET_LOGIC_LEVEL) :: rest) =
        some true := by
  intro pre
  induction pre with
  | nil =>
    intro ts rest _ hts
    simp only [List.nil_append, waitLoopForMagnet]
    rw [if_neg (by omega)]
    simp
  | cons p tl ih =>
    intro ts rest hpre hts
    obtain ⟨t0, l0⟩ := p
    have hp := hpre (t0, l0) (List.mem_cons_self _ _)
    simp only [List.cons_append, waitLoopForMagnet]
    rw [if_neg (by have := hp.1; omega), if_neg hp.2]
    exact ih ts rest (fun q hq => hpre q (List.mem_cons_of_mem _ hq)) hts

/-- C1: a `wait_for_sync_position` call that starts with the published
level `AboveMagnet` can only report `Reached` after observing a transition
to `BetweenMagnets` (the trace splits at a `NOT_ABOVE` observation, and
only the suffix after it can produce `Reached`); a call that starts at
`BetweenMagnets` reports `Reached` on the very next in-budget observation
of `AboveMagnet`. -/
theorem wait_sync_between_before_reached (timeout_ms ts : Int)
    (obs pre rest : List (Int × Nat)) :
    (wait_for_sync_position timeout_ms ABOVE_MAGNET_LOGIC_LEVEL obs = some true →
      ∃ l1 t1 l2, obs = l1 ++ (t1, NOT_ABOVE_MAGNET_LOGIC_LEVEL) :: l2 ∧
        waitLoopForMagnet timeout_ms l2 = some true) ∧
    ((∀ p ∈ pre, p.1 ≤ timeout_ms ∧ p.2 ≠ ABOVE_MAGNET_LOGIC_LEVEL) →
      ts ≤ timeout_ms →
      wait_for_sync_position timeout_ms NOT_ABOVE_MAGNET_LOGIC_LEVEL
        (pre ++ (ts, ABOVE_MAGNET_LOGIC_LEVEL) :: rest) = some true) := by
  constructor
  · intro h
    rw [wait_for_sync_position, if_pos rfl] at h
    exact waitLoopLeaveMagnet_reached timeout_ms obs h
  · intro hpre hts
    rw [wait_for_sync_position, if_neg (by decide)]
    exact waitLoopForMagnet_first_above timeout_ms pre ts rest hpre hts

/-- Witness for the C1 theorem at a concrete trace: starting between
magnets, with one in-budget not-above observation followed by an in-budget
above-magnet observation, the call reports `Reached`. -/
theorem wait_sync_between_before_reached_witness :
    wait_for_sync_position 10 NOT_ABOVE_MAGNET_LOGIC_LEVEL
        [(1, 1), (2, 0)] = some true :=
  (wait_sync_between_before_reached 10 2 [(1, 1), (2, 0)] [(1, 1)] []).2
    (by decide) (by decide)

/-- Helper: the second loop times out when every observed level avoids
`ABOVE_MAGNET_LOGIC_LEVEL` and some observation exceeds the budget. -/
theorem waitLoopForMagnet_const_times_out (T : Int) (lvl : Nat)
    (hlvl : lvl ≠ ABOVE_MAGNET_LOGIC_LEVEL) :
    ∀ obs : List (Int × Nat), (∀ p ∈ obs, p.2 = lvl) →
      (∃ p ∈ obs, p.1 > T) → waitLoopForMagnet T obs = some false := by
  intro obs
  induction obs with
  | nil => intro _ hex; simp at hex
  | cons p tl ih =>
    intro hconst hex
    obtain ⟨t0, l0⟩ := p
    by_cases h1 : t0 > T
    · simp only [waitLoopForMagnet]
      rw [if_pos h1]
    · have hl0 : l0 = lvl := hconst (t0, l0) (List.mem_cons_self _ _)
      simp only [waitLoopForMagnet]
      rw [if_neg h1, if_neg (hl0 ▸ hlvl)]
      refine ih (fun q hq => hconst q (List.mem_cons_of_mem _ hq)) ?_
      obtain ⟨q, hq, hqT⟩ := hex
      rcases List.mem_cons.mp hq with hq0 | hq1
      · exact absurd (hq0 ▸ hqT) (by simpa using h1)
      · exact ⟨q, hq1, hqT⟩

/-- Helper: the first loop times out when every observed level is
`ABOVE_MAGNET_LOGIC_LEVEL` and some observation exceeds the budget. -/
theorem waitLoopLeaveMagnet_const_times_out (T : Int) :
    ∀ obs : List (Int × Nat), (∀ p ∈ obs, p.2 = ABOVE_MAGNET_LOGIC_LEVEL) →
      (∃ p ∈ obs, p.1 > T) → waitLoopLeaveMagnet T obs = some false := by
  intro obs
  induction obs with
  | nil => intro _ hex; simp at hex
  | cons p tl ih =>
    intro hconst hex
    obtain ⟨t0, l0⟩ := p
    by_cases h1 : t0 > T
    · simp only [waitLoopLeaveMagnet]
      rw [if_pos h1]
    · have hl0 : l0 = ABOVE_MAGNET_LOGIC_LEVEL :=
        hconst (t0, l0) (List.mem_cons_self _ _)
      simp only [waitLoopLeaveMagnet]
      rw [if_neg h1, if_neg (by rw [hl0]; decide)]
      refine ih (fun q hq => hconst q (List.mem_cons_of_mem _ hq)) ?_
      obtain ⟨q, hq, hqT⟩ := hex
      rcases List.mem_cons.mp hq with hq0 | hq1
      · exact absurd (hq0 ▸ hqT) (by simpa using h1)
      · exact ⟨q, hq1, hqT⟩

/-- C6: if the published level never changes from `start_level` across the
whole observation trace (no transitions) and the trace runs past the
timeout budget, `wait_for_sync_position` returns `False` ("TimedOut"); and
its only possible outcomes in any case are `true` ("Reached") or `false`
("TimedOut") — it never raises for a timeout. -/
theorem wait_sync_times_out_without_transitions (timeout_ms : Int)
    (start_level : Nat) (obs : List (Int × Nat))
    (hconst : ∀ p ∈ obs, p.2 = start_level)
    (hpast : ∃ p ∈ obs, p.1 > timeout_ms) :
    wait_for_sync_position timeout_ms start_level obs = some false ∧
    ∀ r, wait_for_sync_position timeout_ms start_level obs = some r →
      r = true ∨ r = false := by
  refine ⟨?_, fun r _ => by cases r <;> simp⟩
  by_cases hs : start_level = ABOVE_MAGNET_LOGIC_LEVEL
  · rw [wait_for_sync_position, if_pos hs]
    exact waitLoopLeaveMagnet_const_times_out timeout_ms obs
      (fun p hp => (hconst p hp).trans hs) hpast
  · rw [wait_for_sync_position, if_neg hs]
    exact waitLoopForMagnet_const_times_out timeout_ms start_level hs obs
      hconst hpast

/-- Witness for the C6 theorem: a trace that stays at level 0 and exceeds
the 10 ms budget at its second observation. -/
theorem wait_sync_times_out_without_transitions_witness :
    wait_for_sync_position 10 0 [(5, 0), (20, 0)] = some false :=
  (wait_sync_times_out_without_transitions 10 0 [(5, 0), (20, 0)]
    (by decide) (by decide)).1

/-- Source `ButtonEvent` constants. -/
def ButtonEvent.NONE : Nat := 0

/-- Source constant `ButtonEvent.UP = 1`. -/
def ButtonEvent.UP : Nat := 1

/-- Source constant `ButtonEvent.DOWN = 2`. -/
def ButtonEvent.DOWN : Nat := 2

/-- Source constant `ButtonEvent.BOTH = 3`. -/
def ButtonEvent.BOTH : Nat := 3

/-- The debouncer state carried between polls (source `Buttons` fields
`_start_up_ts` / `_start_down_ts`). -/
structure Buttons where
  start_up_ts : Option Int
  start_down_ts : Option Int
deriving DecidableEq

/-- Source `Buttons.poll_button_event`, one poll: `ts` is `ticks_ms()` at
entry, `up_read` / `down_read` the two raw touch ADC readings. Returns the
updated state and the event code. -/
def poll_button_event (b : Buttons) (ts up_read down_read : Int) :
    Buttons × Nat :=
  let new_up : Option Int :=
    if up_read < TOUCH_ADC_THRESHOLD then
      match b.start_up_ts with
      | none => some ts
      | some t0 => some t0
    else none
  let new_down : Option Int :=
    if down_read < TOUCH_ADC_THRESHOLD then
      match b.start_down_ts with
      | none => some ts
      | some t0 => some t0
    else none
  let ev : Nat :=
    match new_up, new_down with
    | some t0, none =>
      if ticks_diff ts t0 > BUTTON_PRESS_EVENT_THRESHOLD_MS then ButtonEvent.UP
      else ButtonEvent.NONE
    | none, some t0 =>
      if ticks_diff ts t0 > BUTTON_PRESS_EVENT_THRESHOLD_MS then
        ButtonEvent.DOWN
      else ButtonEvent.NONE
    | some t0, some t1 =>
      if ticks_diff ts t0 > BUTTON_PRESS_EVENT_THRESHOLD_MS ∧
          ticks_diff ts t1 > BUTTON_PRESS_EVENT_THRESHOLD_MS then
        ButtonEvent.BOTH
      else ButtonEvent.NONE
    | none, none => ButtonEvent.NONE
  (⟨new_up, new_down⟩, ev)

/-- C5 counterexample: with the up press registered at 0 and the down press
registered at 250, a poll at 300 (both channels still pressed) has only the
up channel past the 200 ms threshold — by the claim the event should be
`Up` — yet the code returns `NONE`, because a pressed-but-under-threshold
down channel routes the decision into the both-pressed branch. -/
theorem poll_button_event_up_suppressed_by_short_down :
    (poll_button_event ⟨some 0, some 250⟩ 300 0 0).2 = ButtonEvent.NONE ∧
    ticks_diff 300 0 > BUTTON_PRESS_EVENT_THRESHOLD_MS ∧
    ¬ ticks_diff 300 250 > BUTTON_PRESS_EVENT_THRESHOLD_MS := by
  decide

/-- C5 amended: a released channel's start timestamp is cleared on every
poll and a still-pressed empty channel records the poll time (so releasing
and re-pressing restarts the timer); `Up` fires iff the up start is present
past the threshold and the down start is absent (a pressed sub-threshold
down channel suppresses `Up`), `Down` symmetrically; `Both` fires iff both
starts are present and both durations exceed the threshold; the only
possible events are `NONE`, `UP`, `DOWN`, `BOTH`, and each of the latter
three requires its channel(s) past the threshold, so `NONE` results
whenever neither channel's duration exceeds it. -/
theorem poll_button_event_classification (b : Buttons)
    (ts up_read down_read : Int) :
    ((¬ up_read < TOUCH_ADC_THRESHOLD →
        (poll_button_event b ts up_read down_read).1.start_up_ts = none) ∧
      (up_read < TOUCH_ADC_THRESHOLD → b.start_up_ts = none →
        (poll_button_event b ts up_read down_read).1.start_up_ts = some ts)) ∧
    ((¬ down_read < TOUCH_ADC_THRESHOLD →
        (poll_button_event b ts up_read down_read).1.start_down_ts = none) ∧
      (down_read < TOUCH_ADC_THRESHOLD → b.start_down_ts = none →
        (poll_button_event b ts up_read down_read).1.start_down_ts = some ts)) ∧
    ((poll_button_event b ts up_read down_read).2 = ButtonEvent.UP ↔
      (∃ t0, (poll_button_event b ts up_read down_read).1.start_up_ts = some t0 ∧
        ticks_diff ts t0 > BUTTON_PRESS_EVENT_THRESHOLD_MS) ∧
      (poll_button_event b ts up_read down_read).1.start_down_ts = none) ∧
    ((poll_button_event b ts up_read down_read).2 = ButtonEvent.DOWN ↔
      (∃ t0, (poll_button_event b ts up_read down_read).1.start_down_ts = some t0 ∧
        ticks_diff ts t0 > BUTTON_PRESS_EVENT_THRESHOLD_MS) ∧
      (poll_button_event b ts up_read down_read).1.start_up_ts = none) ∧
    ((poll_button_event b ts up_read down_read).2 = ButtonEvent.BOTH ↔
      (∃ t0, (poll_button_event b ts up_read down_read).1.start_up_ts = some t0 ∧
        ticks_diff ts t0 > BUTTON_PRESS_EVENT_THRESHOLD_MS) ∧
      (∃ t1, (poll_button_event b ts up_read down_read).1.start_down_ts = some t1 ∧
        ticks_diff ts t1 > BUTTON_PRESS_EVENT_THRESHOLD_MS)) ∧
    ((poll_button_event b ts up_read down_read).2 = ButtonEvent.NONE ∨
      (poll_button_event b ts up_read down_read).2 = ButtonEvent.UP ∨
      (poll_button_event b ts up_read down_read).2 = ButtonEvent.DOWN ∨
      (poll_button_event b ts up_read down_read).2 = ButtonEvent.BOTH) := by
  obtain ⟨bu, bd⟩ := b
  by_cases hu : up_read < TOUCH_ADC_THRESHOLD <;>
    by_cases hd : down_read < TOUCH_ADC_THRESHOLD <;>
    cases bu <;> cases bd <;>
    simp only [poll_button_event, hu, hd, if_true, if_false, ite_true,
      ite_false] <;>
    first
      | (split_ifs <;>
          simp_all [ButtonEvent.NONE, ButtonEvent.UP, ButtonEvent.DOWN,
            ButtonEvent.BOTH])
      | simp_all [ButtonEvent.NONE, ButtonEvent.UP, ButtonEvent.DOWN,
          ButtonEvent.BOTH]

/-- Witness for the C5 amended theorem: a poll that clears a released up
channel, registers a fresh down press, and yields no event. -/
theorem poll_button_event_classification_witness :
    (poll_button_event ⟨some 7, none⟩ 5 400 0).1.start_up_ts = none ∧
    (poll_button_event ⟨some 7, none⟩ 5 400 0).1.start_down_ts = some 5 := by
  have h := poll_button_event_classification ⟨some 7, none⟩ 5 400 0
  exact ⟨h.1.1 (by decide), h.2.1.2 (by decide) rfl⟩

/-- Motor commands issued to the `Blind` driver, in issue order. -/
inductive Cmd
  | up
  | down
  | stop
deriving DecidableEq

/-- One cycle of `basic_mode_loop` as a function of the polled button
event: the `Bool` is whether the loop exits (`break`), the list the motor
commands this cycle issues. The `UP`/`DOWN` branches start the motor and
then block in `wait_for_sync_position` without stopping it. -/
def basic_mode_step (ev : Nat) : Bool × List Cmd :=
  if ev = ButtonEvent.UP then (false, [Cmd.up])
  else if ev = ButtonEvent.DOWN then (false, [Cmd.down])
  else if ev = ButtonEvent.BOTH then (true, [Cmd.stop])
  else (false, [Cmd.stop])

/-- C9: a basic-mode cycle polling `BOTH` stops the actuator and exits the
loop (signalling calibration); a cycle polling `NONE` stops the actuator
and continues looping. -/
theorem basic_mode_both_exits_none_stops :
    basic_mode_step ButtonEvent.BOTH = (true, [Cmd.stop]) ∧
    basic_mode_step ButtonEvent.NONE = (false, [Cmd.stop]) := by
  decide

/-- Loop body of `move_up_until_blocked_and_count_steps`: consumes one
`wait_for_sync_position` outcome per iteration from `results` (the `Bool`
stream of wait-call returns, in call order); on the first `False` it reads
`endpos_at_stall = is_in_sync_position()`, commands down, waits once, then
if the stall was on a magnet commands up and waits once more, and stops.
Returns the counted steps and the full command trace (the initial
`blind.up()` included); `none` models a trace that ends mid-call. -/
def calibGo (endpos_at_stall : Bool) : Nat → List Bool → Option (Nat × List Cmd)
  | _, [] => none
  | steps, true :: rest => calibGo endpos_at_stall (steps + 1) rest
  | steps, false :: rest =>
    match endpos_at_stall, rest with
    | true, _dw :: _uw :: _ =>
      some (steps, [Cmd.up, Cmd.down, Cmd.up, Cmd.stop])
    | true, _ => none
    | false, _dw :: _ => some (steps, [Cmd.up, Cmd.down, Cmd.stop])
    | false, [] => none

/-- Source `move_up_until_blocked_and_count_steps`: commands up, counts
successful sync waits until the first timeout, reverses as described in
`calibGo`, and returns the step count. -/
def move_up_until_blocked_and_count_steps (results : List Bool)
    (endpos_at_stall : Bool) : Option (Nat × List Cmd) :=
  calibGo endpos_at_stall 0 results

/-- Source `Settings.set_number_of_total_steps`: overwrites the persisted
value (the NVS store modelled by its cached `Option Int`). -/
def set_number_of_total_steps (cached : Option Int) (val : Int) : Option Int :=
  some val

/-- The uncalibrated branch of the module main flow (source lines 351-357):
after basic mode exits, run calibration and persist its step count as
`TotalSteps`. Returns the settings store after persisting. -/
def calibrate_and_persist (settings0 : Option Int) (results : List Bool)
    (endpos_at_stall : Bool) : Option (Option Int) :=
  match move_up_until_blocked_and_count_steps results endpos_at_stall with
  | none => none
  | some (steps, _) => some (set_number_of_total_steps settings0 (steps : Int))

/-- Helper: the counting loop turns a block of `n` successes into `n`
counted steps. -/
theorem calibGo_replicate (endpos : Bool) (n : Nat) :
    ∀ (s : Nat) (l : List Bool),
      calibGo endpos s (List.replicate n true ++ l) = calibGo endpos (s + n) l := by
  induction n with
  | zero => intro s l; rfl
  | succ k ih =>
    intro s l
    simp only [List.replicate_succ, List.cons_append, calibGo, List.append_eq]
    rw [ih (s + 1) l]
    congr 1
    omega

/-- C3: a calibration run of `n` successful sync waits followed by one
timeout, stalling exactly on a magnet, counts `n` steps, issues the command
trace up / down / compensating up / stop (ending at the fully-up end), and
the main flow persists `TotalSteps = n`; stalling off a magnet it counts
the same `n` but skips the compensating up move. -/
theorem calibration_counts_and_persists (n : Nat) (dw uw : Bool)
    (rest : List Bool) (settings0 : Option Int) :
    move_up_until_blocked_and_count_steps
        (List.replicate n true ++ false :: dw :: uw :: rest) true =
      some (n, [Cmd.up, Cmd.down, Cmd.up, Cmd.stop]) ∧
    calibrate_and_persist settings0
        (List.replicate n true ++ false :: dw :: uw :: rest) true =
      some (some (n : Int)) ∧
    move_up_until_blocked_and_count_steps
        (List.replicate n true ++ false :: dw :: uw :: rest) false =
      some (n, [Cmd.up, Cmd.down, Cmd.stop]) := by
  have h : move_up_until_blocked_and_count_steps
      (List.replicate n true ++ false :: dw :: uw :: rest) true =
      some (n, [Cmd.up, Cmd.down, Cmd.up, Cmd.stop]) := by
    rw [move_up_until_blocked_and_count_steps, calibGo_replicate]
    simp [calibGo]
  refine ⟨h, ?_, ?_⟩
  · rw [calibrate_and_persist, h]
    rfl
  · rw [move_up_until_blocked_and_count_steps, calibGo_replicate]
    simp [calibGo]

/-- Entry of `advanced_mode_loop` (source lines 293-306): asserts a
persisted `TotalSteps` exists, runs the homing pass
(`move_up_until_blocked_and_count_steps`), and sets `current_position` to
the persisted value, discarding the homing pass's count. Returns the
initial `current_position`, or `none` if the assertion fails or the homing
trace is incomplete. -/
def advanced_mode_init (stored_total_steps : Option Int) (results : List Bool)
    (endpos_at_stall : Bool) : Option Int :=
  match stored_total_steps with
  | none => none
  | some sp =>
    match move_up_until_blocked_and_count_steps results endpos_at_stall with
    | none => none
    | some _ => some sp

/-- C7: whatever step count `n` the homing pass produces, advanced-mode
entry sets `current_position` to the persisted `TotalSteps` value `T`. -/
theorem advanced_mode_init_uses_persisted_total (T : Int) (n : Nat)
    (dw uw : Bool) (rest : List Bool) (endpos_at_stall : Bool) :
    advanced_mode_init (some T)
        (List.replicate n true ++ false :: dw :: uw :: rest) endpos_at_stall =
      some T := by
  rw [advanced_mode_init]
  have h : ∃ p, move_up_until_blocked_and_count_steps
      (List.replicate n true ++ false :: dw :: uw :: rest) endpos_at_stall =
      some p := by
    rw [move_up_until_blocked_and_count_steps, calibGo_replicate]
    cases endpos_at_stall <;> exact ⟨_, rfl⟩
  obtain ⟨p, hp⟩ := h
  rw [hp]

/-- Outcome of one handled button event inside the advanced-mode loop:
the positions `current_position` takes during the traversal (after each
increment or decrement, in order), its final value, and whether the fatal
desynchronization halt (`while True: pass` with the motor stopped) was
entered. -/
structure AdvOutcome where
  visited : List Int
  pos : Int
  halted : Bool
deriving DecidableEq

/-- The inner `UP` traversal loop of `advanced_mode_loop`: each iteration
consumes one `wait_for_sync_position(8000)` outcome; success increments
`current_position`, then the loop breaks once it equals `stop_position`;
a timeout stops the motor and enters the fatal halt. -/
def advUpGo (stop_position : Int) : Int → List Bool → Option AdvOutcome
  | _, [] => none
  | cur, true :: rest =>
    let c := cur + 1
    if c = stop_position then some ⟨[c], c, false⟩
    else
      match advUpGo stop_position c rest with
      | none => none
      | some o => some ⟨c :: o.visited, o.pos, o.halted⟩
  | cur, false :: _ => some ⟨[], cur, true⟩

/-- The inner `DOWN` traversal loop of `advanced_mode_loop`: success
decrements `current_position`, the loop breaks once it equals `0`; a
timeout enters the fatal halt. -/
def advDownGo : Int → List Bool → Option AdvOutcome
  | _, [] => none
  | cur, true :: rest =>
    let c := cur - 1
    if c = 0 then some ⟨[c], c, false⟩
    else
      match advDownGo c rest with
      | none => none
      | some o => some ⟨c :: o.visited, o.pos, o.halted⟩
  | cur, false :: _ => some ⟨[], cur, true⟩

/-- The `UP` branch of the advanced-mode loop body: acted on only when
`current_position == 0`, in which case the motor starts, the traversal loop
runs, and the motor stops (on completion or in the halt path); otherwise
nothing happens. Also returns the motor commands issued. -/
def advanced_up_event (stop_position cur : Int) (results : List Bool) :
    Option (AdvOutcome × List Cmd) :=
  if cur = 0 then
    match advUpGo stop_position 0 results with
    | none => none
    | some o => some (o, [Cmd.up, Cmd.stop])
  else some (⟨[], cur, false⟩, [])

/-- The `DOWN` branch of the advanced-mode loop body: acted on only when
`current_position == stop_position`. -/
def advanced_down_event (stop_position cur : Int) (results : List Bool) :
    Option (AdvOutcome × List Cmd) :=
  if cur = stop_position then
    match advDownGo stop_position results with
    | none => none
    | some o => some (o, [Cmd.down, Cmd.stop])
  else some (⟨[], cur, false⟩, [])

/-- One iteration of the advanced-mode loop (source lines 308-346),
dispatching on the polled button event; any event other than `UP`/`DOWN`
stops the motor and leaves the position unchanged. -/
def advanced_step (stop_position cur : Int) (ev : Nat) (results : List Bool) :
    Option (AdvOutcome × List Cmd) :=
  if ev = ButtonEvent.UP then advanced_up_event stop_position cur results
  else if ev = ButtonEvent.DOWN then advanced_down_event stop_position cur results
  else some (⟨[], cur, false⟩, [Cmd.stop])

/-- Helper: from any start, a block of exactly `k + 1` successes whose last
one lands on `stop_position` completes the `UP` traversal there, halt-free,
without consuming the remaining outcomes. -/
theorem advUpGo_complete :
    ∀ (k : Nat) (cur stop_position : Int),
      stop_position = cur + (k : Int) + 1 →
      ∀ rest : List Bool, ∃ v,
        advUpGo stop_position cur (List.replicate (k + 1) true ++ rest) =
          some ⟨v, stop_position, false⟩ := by
  intro k
  induction k with
  | zero =>
    intro cur stop_position hstop rest
    have h1 : stop_position = cur + 1 := by push_cast at hstop; omega
    subst h1
    exact ⟨[cur + 1], by simp [advUpGo]⟩
  | succ m ih =>
    intro cur stop_position hstop rest
    have hne : ¬ cur + 1 = stop_position := by push_cast at hstop ⊢; omega
    obtain ⟨v, hv⟩ := ih (cur + 1) stop_position (by push_cast at hstop ⊢; omega) rest
    refine ⟨(cur + 1) :: v, ?_⟩
    rw [List.replicate_succ, List.cons_append, advUpGo.eq_2, if_neg hne, hv]

/-- Helper: fewer successes than needed to reach `stop_position`, and no
timeout, leave the `UP` traversal loop still waiting. -/
theorem advUpGo_short :
    ∀ (k : Nat) (cur stop_position : Int), cur + (k : Int) < stop_position →
      advUpGo stop_position cur (List.replicate k true) = none := by
  intro k
  induction k with
  | zero => intro cur stop_position _; rfl
  | succ m ih =>
    intro cur stop_position hk
    have hne : ¬ cur + 1 = stop_position := by push_cast at hk ⊢; omega
    simp only [List.replicate_succ, advUpGo]
    rw [if_neg hne, ih (cur + 1) stop_position (by push_cast at hk ⊢; omega)]

/-- Helper: `k` successes short of `stop_position` followed by a timeout
leave the `UP` traversal halted at `cur + k` with the motor stopped. -/
theorem advUpGo_halt :
    ∀ (k : Nat) (cur stop_position : Int), cur + (k : Int) < stop_position →
      ∀ rest : List Bool, ∃ v,
        advUpGo stop_position cur (List.replicate k true ++ false :: rest) =
          some ⟨v, cur + (k : Int), true⟩ := by
  intro k
  induction k with
  | zero =>
    intro cur stop_position _ rest
    exact ⟨[], by simp [advUpGo]⟩
  | succ m ih =>
    intro cur stop_position hk rest
    have hne : ¬ cur + 1 = stop_position := by push_cast at hk ⊢; omega
    obtain ⟨v, hv⟩ := ih (cur + 1) stop_position (by push_cast at hk ⊢; omega) rest
    refine ⟨(cur + 1) :: v, ?_⟩
    rw [show cur + ((m + 1 : Nat) : Int) = cur + 1 + (m : Int) by push_cast; omega,
      List.replicate_succ, List.cons_append, advUpGo.eq_2, if_neg hne, hv]

/-- C2 counterexample: with a calibrated `TotalSteps = 0` and
`current_position = 0`, the claim requires the `Up` traversal to stop the
actuator exactly when `current_position == TotalSteps` — which already
holds, so zero successful syncs and no possible halt — but the code checks
the position only after a sync wait, so a single timeout drives the fatal
halt even though the position had already reached `TotalSteps`. -/
theorem advanced_up_halts_despite_position_at_total :
    advanced_up_event 0 0 [false] =
      some (⟨[], 0, true⟩, [Cmd.up, Cmd.stop]) := by
  decide

/-- C2 amended: for every calibrated `TotalSteps = n + 1 ≥ 1`, an `Up`
event is ignored unless `current_position == 0`; from `0`, exactly `n + 1`
successful sync waits complete the traversal at `TotalSteps` with the motor
stopped (further outcomes unused), fewer successes alone never finish it,
and any single timeout before reaching `TotalSteps` stops the actuator and
enters the non-recoverable halt, with no motor command after the stop. -/
theorem advanced_up_traversal (n k : Nat) (cur : Int) (rest : List Bool)
    (hcur : cur ≠ 0) (hk : k < n + 1) :
    advanced_up_event ((n : Int) + 1) cur rest = some (⟨[], cur, false⟩, []) ∧
    (∃ v, advanced_up_event ((n : Int) + 1) 0
        (List.replicate (n + 1) true ++ rest) =
      some (⟨v, (n : Int) + 1, false⟩, [Cmd.up, Cmd.stop])) ∧
    advanced_up_event ((n : Int) + 1) 0 (List.replicate k true) = none ∧
    (∃ v, advanced_up_event ((n : Int) + 1) 0
        (List.replicate k true ++ false :: rest) =
      some (⟨v, (k : Int), true⟩, [Cmd.up, Cmd.stop])) := by
  refine ⟨by rw [advanced_up_event, if_neg hcur], ?_, ?_, ?_⟩
  · obtain ⟨v, hv⟩ := advUpGo_complete n 0 ((n : Int) + 1) (by omega) rest
    exact ⟨v, by rw [advanced_up_event, if_pos rfl, hv]⟩
  · rw [advanced_up_event, if_pos rfl,
      advUpGo_short k 0 ((n : Int) + 1) (by omega)]
  · obtain ⟨v, hv⟩ := advUpGo_halt k 0 ((n : Int) + 1) (by omega) rest
    refine ⟨v, ?_⟩
    rw [advanced_up_event, if_pos rfl, hv]
    norm_num

/-- Witness for the C2 amended theorem at `TotalSteps = 10`: an `Up` event
at position 1 is ignored, and four successes alone do not finish the
traversal. -/
theorem advanced_up_traversal_witness :
    advanced_up_event 10 1 [] = some (⟨[], 1, false⟩, []) ∧
    advanced_up_event 10 0 (List.replicate 4 true) = none := by
  have h := advanced_up_traversal 9 4 1 [] (by decide) (by decide)
  exact ⟨h.1, h.2.2.1⟩

/-- Helper: starting the `UP` traversal strictly below `stop_position`
keeps every visited position and the final position within
`[0, stop_position]`. -/
theorem advUpGo_bounds (stop_position : Int) :
    ∀ (results : List Bool) (cur : Int), 0 ≤ cur → cur < stop_position →
      ∀ o, advUpGo stop_position cur results = some o →
        (∀ p ∈ o.visited, 0 ≤ p ∧ p ≤ stop_position) ∧
        0 ≤ o.pos ∧ o.pos ≤ stop_position := by
  intro results
  induction results with
  | nil => intro cur _ _ o ho; simp [advUpGo] at ho
  | cons r rest ih =>
    intro cur h0 hs o ho
    cases r
    · rw [advUpGo.eq_3] at ho
      injection ho with ho
      subst ho
      refine ⟨by simp, ?_, ?_⟩ <;> dsimp only <;> omega
    · rw [advUpGo.eq_2] at ho
      by_cases hc : cur + 1 = stop_position
      · rw [if_pos hc] at ho
        injection ho with ho
        subst ho
        refine ⟨?_, by dsimp only; omega, by dsimp only; omega⟩
        intro p hp
        simp only [List.mem_singleton] at hp
        subst hp
        omega
      · rw [if_neg hc] at ho
        cases hrec : advUpGo stop_position (cur + 1) rest with
        | none => rw [hrec] at ho; exact absurd ho (by simp)
        | some o2 =>
          rw [hrec] at ho
          have hb := ih (cur + 1) (by omega) (by omega) o2 hrec
          injection ho with ho
          subst ho
          refine ⟨?_, hb.2⟩
          intro p hp
          dsimp only at hp
          rcases List.mem_cons.mp hp with hp0 | hp1
          · subst hp0; omega
          · exact hb.1 p hp1

/-- Helper: starting the `DOWN` traversal strictly above `0` keeps every
visited position in `[0, cur)` and the final position in `[0, cur]`. -/
theorem advDownGo_bounds :
    ∀ (results : List Bool) (cur : Int), 0 < cur →
      ∀ o, advDownGo cur results = some o →
        (∀ p ∈ o.visited, 0 ≤ p ∧ p < cur) ∧ 0 ≤ o.pos ∧ o.pos ≤ cur := by
  intro results
  induction results with
  | nil => intro cur _ o ho; simp [advDownGo] at ho
  | cons r rest ih =>
    intro cur h0 o ho
    cases r
    · rw [advDownGo.eq_3] at ho
      injection ho with ho
      subst ho
      refine ⟨by simp, ?_, ?_⟩ <;> dsimp only <;> omega
    · rw [advDownGo.eq_2] at ho
      by_cases hc : cur - 1 = 0
      · rw [if_pos hc] at ho
        injection ho with ho
        subst ho
        refine ⟨?_, by dsimp only; omega, by dsimp only; omega⟩
        intro p hp
        simp only [List.mem_singleton] at hp
        subst hp
        omega
      · rw [if_neg hc] at ho
        cases hrec : advDownGo (cur - 1) rest with
        | none => rw [hrec] at ho; exact absurd ho (by simp)
        | some o2 =>
          rw [hrec] at ho
          have hb := ih (cur - 1) (by omega) o2 hrec
          injection ho with ho
          subst ho
          constructor
          · intro p hp
            dsimp only at hp
            rcases List.mem_cons.mp hp with hp0 | hp1
            · subst hp0; omega
            · have := hb.1 p hp1; omega
          · dsimp only
            have h1 := hb.2.1
            have h2 := hb.2.2
            exact ⟨h1, by omega⟩

/-- C8 counterexample: with a calibrated `TotalSteps = 0` (reachable, since
calibration persists whatever count it produced, including `0`) and
`current_position = 0`, one `Up` event with a successful sync wait drives
`current_position` to `1 > TotalSteps`, leaving the claimed interval
`[0, TotalSteps]`. -/
theorem advanced_position_escapes_at_zero_total :
    advanced_step 0 0 ButtonEvent.UP [true, false] =
      some (⟨[1], 1, true⟩, [Cmd.up, Cmd.stop]) ∧ ¬ ((1 : Int) ≤ 0) := by
  decide

/-- C8 amended: for every calibrated `TotalSteps ≥ 1`, one advanced-mode
loop iteration started at a position within `[0, TotalSteps]` keeps every
intermediate position it visits, and its final position, within
`[0, TotalSteps]`, for every button event and every sequence of sync-wait
outcomes. -/
theorem advanced_position_in_range (stop_position cur : Int) (ev : Nat)
    (results : List Bool) (o : AdvOutcome) (cmds : List Cmd)
    (hstop : 1 ≤ stop_position) (h0 : 0 ≤ cur) (hcur : cur ≤ stop_position)
    (hstep : advanced_step stop_position cur ev results = some (o, cmds)) :
    (∀ p ∈ o.visited, 0 ≤ p ∧ p ≤ stop_position) ∧
    0 ≤ o.pos ∧ o.pos ≤ stop_position := by
  rw [advanced_step] at hstep
  by_cases hev1 : ev = ButtonEvent.UP
  · rw [if_pos hev1, advanced_up_event] at hstep
    by_cases hc0 : cur = 0
    · rw [if_pos hc0] at hstep
      cases hgo : advUpGo stop_position 0 results with
      | none => rw [hgo] at hstep; exact absurd hstep (by simp)
      | some o2 =>
        rw [hgo] at hstep
        have hb := advUpGo_bounds stop_position results 0 le_rfl
          (by omega) o2 hgo
        simp only [Option.some.injEq, Prod.mk.injEq] at hstep
        obtain ⟨ho, -⟩ := hstep
        subst ho
        exact hb
    · rw [if_neg hc0] at hstep
      simp only [Option.some.injEq, Prod.mk.injEq] at hstep
      obtain ⟨ho, -⟩ := hstep
      subst ho
      exact ⟨by simp, h0, hcur⟩
  · rw [if_neg hev1] at hstep
    by_cases hev2 : ev = ButtonEvent.DOWN
    · rw [if_pos hev2, advanced_down_event] at hstep
      by_cases hcs : cur = stop_position
      · rw [if_pos hcs] at hstep
        cases hgo : advDownGo stop_position results with
        | none => rw [hgo] at hstep; exact absurd hstep (by simp)
        | some o2 =>
          rw [hgo] at hstep
          have hb := advDownGo_bounds results stop_position (by omega) o2 hgo
          simp only [Option.some.injEq, Prod.mk.injEq] at hstep
          obtain ⟨ho, -⟩ := hstep
          subst ho
          exact ⟨fun p hp => ⟨(hb.1 p hp).1, by have := (hb.1 p hp).2; omega⟩,
            hb.2⟩
      · rw [if_neg hcs] at hstep
        simp only [Option.some.injEq, Prod.mk.injEq] at hstep
        obtain ⟨ho, -⟩ := hstep
        subst ho
        exact ⟨by simp, h0, hcur⟩
    · rw [if_neg hev2] at hstep
      simp only [Option.some.injEq, Prod.mk.injEq] at hstep
      obtain ⟨ho, -⟩ := hstep
      subst ho
      exact ⟨by simp, h0, hcur⟩

/-- Witness for the C8 amended theorem: `TotalSteps = 2`, an `Up` event
from position 0 whose second sync wait times out, ending halted at
position 1 — inside `[0, 2]`. -/
theorem advanced_position_in_range_witness :
    (0 : Int) ≤ 1 ∧ (1 : Int) ≤ 2 :=
  (advanced_position_in_range 2 0 ButtonEvent.UP [true, false]
    ⟨[1], 1, true⟩ [Cmd.up, Cmd.stop] (by decide) (by decide) (by decide)
    (by decide)).2
